import Mathlib

/-!
Shallow embedding of the availability-synchronization engine of the
`api-balo-calendar-polling` service (Python/FastAPI + Tortoise ORM),
together with proofs of the specification claims about it.

Source files embedded:
* `src/services/cronofy_service.py` — provider client, batching planner,
  response reconciliation;
* `src/core/retry_utils.py` — retry with exponential backoff;
* `src/services/expert_service.py` — sync orchestrator
  (`update_all_expert_availability`);
* `src/models/expert.py` — record store (`Expert.update_availability`);
* `src/models/availability_error.py` — error ledger
  (`AvailabilityError.log_error` / `clear_error`);
* `src/core/expert_utils.py` — `delete_expert_by_identifier`.

Database tables are modelled as Lean lists of rows; `await`-ed ORM calls
become pure state transformations.  Exceptions become an explicit
`Except` with a `PyExn` error type mirroring the exception classes that
the code distinguishes.  Wall-clock timestamps are abstract `Nat`
parameters; nondeterministic inputs (HTTP responses, jitter) are
explicit function parameters.
-/

namespace CalendarPolling

/-- Row of the `experts` table (`src/models/expert.py`, class `Expert`).
The ORM's `id` surrogate key and the `created_at`/`updated_at` audit
columns play no role in any claim and are omitted; `bubble_uid` (unique)
identifies a row. -/
structure Expert where
  expert_name : String
  cronofy_id : String
  calendar_ids : List String
  bubble_uid : String
  last_availability_check : Option Nat
  earliest_available_unix : Option Int
  version : Nat
  deriving Repr, DecidableEq

/-- `schemas/availability.py`, class `AvailabilityData`.  The
`last_updated` ISO string (always `datetime.now()` at construction) and
the always-`None` `error`/`error_details` fields carry no information
used by any claim and are omitted. -/
structure AvailabilityData where
  expert_id : String
  earliest_available_unix : Option Int
  deriving Repr, DecidableEq

/-- One participant entry of a slot in the provider's response
(`{"sub": ..., "uid": ...}` after enrichment; `uid` is absent before
enrichment, modelled as `none`). -/
structure Participant where
  sub : String
  uid : Option String
  deriving Repr, DecidableEq

/-- One `available_slots` entry of the provider's response.  The `end`
timestamp is never read by the code and is omitted. -/
structure Slot where
  start : String
  participants : List Participant
  deriving Repr, DecidableEq

/-- The provider's availability response body, as consumed by the code
(`data.get("available_slots", [])`). -/
structure CronofyResponse where
  available_slots : List Slot
  deriving Repr, DecidableEq

/-- The Python exception classes the code distinguishes.
`timeoutException` stands for `httpx.TimeoutException` and its
subclasses (`httpx.ConnectTimeout`, `httpx.ReadTimeout`, ...);
`connectError` for a non-timeout `httpx.ConnectError`;
`httpStatusError` for `httpx.HTTPStatusError`; `valueError` for
`ValueError`; `exn` for a plain `Exception`. -/
inductive PyExn where
  | timeoutException
  | connectError
  | httpStatusError (code : Nat)
  | valueError (msg : String)
  | exn (msg : String)
  deriving Repr, DecidableEq

/-- Outcome of one outbound `client.post(...)` to the provider: the
request can time out, fail at the transport level, or produce an HTTP
response with a status code and (when parseable) a body. -/
inductive PostOutcome where
  | timeout
  | connectError
  | response (code : Nat) (body : CronofyResponse)
  deriving Repr

/-! ## Batching planner (`CronofyService.batch_experts`) -/

/-- `CronofyService.batch_experts` (`src/services/cronofy_service.py`):
`for i in range(0, len(experts), batch_size): batches.append(experts[i:i + batch_size])`.
`range(0, n, m)` has `⌈n/m⌉ = (n + m - 1) / m` elements for `m > 0`, and
the `j`-th slice is `experts[j*m : j*m + m]`.  (For `m = 0` Python's
`range` raises; the claims only concern `m > 0`.) -/
def batch_experts (experts : List Expert) (batch_size : Nat) : List (List Expert) :=
  (List.range ((experts.length + batch_size - 1) / batch_size)).map
    (fun j => ((experts.drop (j * batch_size)).take batch_size))

/-! ## Retry with exponential backoff (`src/core/retry_utils.py`) -/

/-- Whether an exception is an instance of the exception tuple
`(httpx.TimeoutException, httpx.ConnectTimeout, httpx.HTTPStatusError)`
that `fetch_cronofy_availability`'s `@with_retry` decorator passes to
`retry_with_exponential_backoff` (`httpx.ConnectTimeout` is itself a
`TimeoutException` subclass). -/
def retryable : PyExn → Bool
  | .timeoutException => true
  | .httpStatusError _ => true
  | _ => false

/-- The pre-jitter delay of `retry_with_exponential_backoff` before the
retry that follows failed attempt number `attempt` (0-based):
`min(base_delay * exponential_factor ** attempt, max_delay)`. -/
def backoff_delay (base_delay max_delay exponential_factor : ℚ) (attempt : Nat) : ℚ :=
  min (base_delay * exponential_factor ^ attempt) max_delay

/-- Loop body of `retry_with_exponential_backoff`: attempt number
`attempt` runs `body attempt`; on success return; on an exception that
is an instance of `exceptions` with `attempt < max_retries`, sleep the
jittered backoff delay and continue; otherwise re-raise.  `jit attempt`
is the random factor `0.5 + random.random() * 0.5` drawn before that
retry.  Returns the final result, the number of attempts consumed, and
the list of slept delays.  `fuel` is an upper bound on the remaining
iterations (structural recursion; the caller supplies
`max_retries + 1 - attempt`, which the loop never exhausts). -/
def retry_go (body : Nat → Except PyExn CronofyResponse) (max_retries : Nat)
    (base_delay max_delay exponential_factor : ℚ) (jit : Nat → ℚ) :
    Nat → Nat → Except PyExn CronofyResponse × Nat × List ℚ
  | 0, attempt => (.error (.exn "retry loop exhausted"), attempt, [])
  | fuel + 1, attempt =>
    match body attempt with
    | .ok a => (.ok a, attempt + 1, [])
    | .error e =>
      if retryable e && decide (attempt < max_retries) then
        let d := backoff_delay base_delay max_delay exponential_factor attempt * jit attempt
        let rest := retry_go body max_retries base_delay max_delay exponential_factor jit fuel (attempt + 1)
        (rest.1, rest.2.1, d :: rest.2.2)
      else
        (.error e, attempt + 1, [])

/-- `retry_with_exponential_backoff(func, max_retries, base_delay,
max_delay, exponential_factor, jitter=True, exceptions)` where `func`'s
attempt number `i` yields `body i`. -/
def retry_with_exponential_backoff (body : Nat → Except PyExn CronofyResponse)
    (max_retries : Nat) (base_delay max_delay exponential_factor : ℚ) (jit : Nat → ℚ) :
    Except PyExn CronofyResponse × Nat × List ℚ :=
  retry_go body max_retries base_delay max_delay exponential_factor jit (max_retries + 1) 0

/-! ## Provider client (`src/services/cronofy_service.py`) -/

/-- The dict comprehension `sub_to_uid_map = {expert.cronofy_id:
expert.bubble_uid for expert in original_experts if expert.cronofy_id
and expert.bubble_uid}` followed by `.get(sub)`: experts with a falsy
(empty) id are skipped, and for duplicate `cronofy_id` keys the last
occurrence wins. -/
def sub_to_uid_map (original_experts : List Expert) (sub : String) : Option String :=
  (((original_experts.filter fun e => e.cronofy_id != "" && e.bubble_uid != "").reverse.find?
    fun e => e.cronofy_id == sub).map fun e => e.bubble_uid)

/-- The UID-enrichment step of `fetch_cronofy_availability`: when the
response has slots, `original_experts` is truthy, and the sub→uid map is
non-empty, every participant entry of every slot gets a `uid` field from
the map (possibly `None`). -/
def enrich (data : CronofyResponse) (original_experts : List Expert) : CronofyResponse :=
  if data.available_slots.isEmpty || original_experts.isEmpty then data
  else if (original_experts.filter fun e => e.cronofy_id != "" && e.bubble_uid != "").isEmpty then
    data
  else
    { available_slots := data.available_slots.map fun slot =>
        { slot with participants := slot.participants.map fun p =>
            { p with uid := sub_to_uid_map original_experts p.sub } } }

/-- One un-decorated run of `CronofyService.fetch_cronofy_availability`'s
body, given the outcome of its single `client.post`.  Mirrors the
source: the token check precedes the `try`; inside the `try` a non-2xx
response raises `httpx.HTTPStatusError` when `status_code >= 500` and a
plain `Exception` otherwise; `except httpx.TimeoutException` replaces
any timeout with a plain `Exception("Cronofy API request timed out")`;
the final `except Exception: raise` re-raises anything else (e.g. an
`httpx.ConnectError`) unchanged.  Request-body construction and the
rate-limit sleep do not affect the returned value and are absorbed into
the `post` oracle. -/
def fetch_cronofy_availability_once (token_set : Bool) (original_experts : List Expert)
    (post : PostOutcome) : Except PyExn CronofyResponse :=
  if !token_set then .error (.valueError "CRONOFY_ACCESS_TOKEN is not configured")
  else
    match post with
    | .timeout => .error (.exn "Cronofy API request timed out")
    | .connectError => .error .connectError
    | .response code body =>
      if 200 ≤ code && code < 300 then .ok (enrich body original_experts)
      else if 500 ≤ code then .error (.httpStatusError code)
      else .error (.exn ("Cronofy API error: " ++ toString code))

/-- `CronofyService.fetch_cronofy_availability` as decorated by
`@with_retry(max_retries=3, base_delay=1.0, max_delay=10.0,
exceptions=(httpx.TimeoutException, httpx.ConnectTimeout,
httpx.HTTPStatusError))` (`exponential_factor` keeps its default `2.0`).
`posts i` is the outcome of the outbound POST made by attempt `i`.
Returns the final result, the number of attempts run, and the jittered
backoff delays slept. -/
def fetch_cronofy_availability (token_set : Bool) (original_experts : List Expert)
    (posts : Nat → PostOutcome) (jit : Nat → ℚ) :
    Except PyExn CronofyResponse × Nat × List ℚ :=
  retry_with_exponential_backoff
    (fun attempt => fetch_cronofy_availability_once token_set original_experts (posts attempt))
    3 1 10 2 jit

/-- The `expert_slots` selection loop of
`CronofyService.find_earliest_available_slot_from_response`: a slot is
kept exactly when some participant entry has `sub` equal to the expert's
provider subject id (the source breaks out of the inner loop on the
first match, appending the slot once). -/
def matching_slots (cronofy_response : CronofyResponse) (expert_cronofy_id : String) :
    List Slot :=
  cronofy_response.available_slots.filter fun slot =>
    slot.participants.any fun participant => participant.sub == expert_cronofy_id

/-- `CronofyService.find_earliest_available_slot_from_response`.
`toEpoch` abstracts `int(datetime.fromisoformat(start.replace('Z',
'+00:00')).timestamp())`; it is total, so the surrounding
`except Exception: return None` is unreachable in the embedding (the
claims assume well-formed timestamps).  The Python `list.sort(key=...)`
is a stable sort, modelled by `List.mergeSort`; `slot.get("start", "")`
makes a missing `start` the empty string, which is falsy in the final
`if start_time:` check. -/
def find_earliest_available_slot_from_response (toEpoch : String → Int)
    (cronofy_response : CronofyResponse) (expert_cronofy_id : String) : Option Int :=
  let available_slots := cronofy_response.available_slots
  if available_slots.isEmpty then none
  else
    let expert_slots := matching_slots cronofy_response expert_cronofy_id
    if expert_slots.isEmpty then none
    else
      let sorted := expert_slots.mergeSort fun a b => a.start ≤ b.start
      match sorted.head? with
      | none => none
      | some earliest_slot =>
        if earliest_slot.start == "" then none
        else some (toEpoch earliest_slot.start)

/-- `CronofyService.fetch_experts_availability_batch`.  The second
component counts the outbound provider POSTs made (0 when the guard
clauses return early).  The over-limit `ValueError` is raised before the
`try`, so it propagates; inside the `try`, any exception from the
(decorated) fetch is caught by `except Exception` and turned into a
null-availability entry per expert. -/
def fetch_experts_availability_batch (token_set : Bool) (toEpoch : String → Int)
    (posts : Nat → PostOutcome) (jit : Nat → ℚ) (experts : List Expert) :
    Except PyExn (List AvailabilityData) × Nat :=
  if experts.length > 10 then
    (.error (.valueError
      ("Cannot batch more than 10 experts per request (got " ++ toString experts.length ++ ")")), 0)
  else if !token_set then
    (.ok (experts.map fun expert =>
      { expert_id := expert.cronofy_id, earliest_available_unix := none }), 0)
  else
    let fetched := fetch_cronofy_availability token_set experts posts jit
    match fetched.1 with
    | .ok response_data =>
      (.ok (experts.map fun expert =>
        { expert_id := expert.cronofy_id,
          earliest_available_unix :=
            find_earliest_available_slot_from_response toEpoch response_data expert.cronofy_id }),
       fetched.2.1)
    | .error _ =>
      (.ok (experts.map fun expert =>
        { expert_id := expert.cronofy_id, earliest_available_unix := none }), fetched.2.1)

/-! ## Record store (`src/models/expert.py`) -/

/-- `Expert.update_availability(self, earliest_available_unix)` run
against the `experts` table `rows`, where `self` is the caller's
in-memory copy of the record.  The conditional
`filter(bubble_uid=..., version=current_version).update(...)` is a
row-wise map plus the affected-row count; when it affects zero rows the
code calls `refresh_from_db` (which raises `DoesNotExist` — modelled as
`none` — if the row vanished) and then retries an **unconditional**
`filter(bubble_uid=...).update(...)` with `version=self.version + 1`,
leaving the refreshed in-memory copy (`self`) untouched.  On the
first-attempt success path the in-memory copy is synchronized by hand.
Returns the new table and the caller's in-memory copy afterwards. -/
def update_availability (rows : List Expert) (self : Expert)
    (earliest_available_unix : Option Int) (now : Nat) : Option (List Expert × Expert) :=
  let current_version := self.version
  let rows_updated :=
    (rows.filter fun r => r.bubble_uid == self.bubble_uid && r.version == current_version).length
  if rows_updated == 0 then
    match rows.find? fun r => r.bubble_uid == self.bubble_uid with
    | none => none
    | some fresh =>
      some (rows.map fun r =>
        if r.bubble_uid == self.bubble_uid then
          { r with last_availability_check := some now,
                   earliest_available_unix := earliest_available_unix,
                   version := fresh.version + 1 }
        else r,
        fresh)
  else
    some (rows.map fun r =>
      if r.bubble_uid == self.bubble_uid && r.version == current_version then
        { r with last_availability_check := some now,
                 earliest_available_unix := earliest_available_unix,
                 version := current_version + 1 }
      else r,
      { self with last_availability_check := some now,
                  earliest_available_unix := earliest_available_unix,
                  version := current_version + 1 })

/-! ## Error ledger (`src/models/availability_error.py`) -/

/-- Row of the `availability_errors` table (class `AvailabilityError`);
`bubble_uid` is the primary key.  The `created_at`/`updated_at` audit
columns are omitted. -/
structure ErrorEntry where
  bubble_uid : String
  expert_name : String
  cronofy_id : String
  error_reason : String
  error_details : Option String
  unix_timestamp : Nat
  melbourne_time : String
  deriving Repr, DecidableEq

/-- `AvailabilityError.log_error`: `get_or_create` on the primary key,
then — when the row already existed — an in-place save of only
`error_reason`, `error_details`, `unix_timestamp`, `melbourne_time`
(the denormalized `expert_name`/`cronofy_id` are set only at creation).
`now`/`melbourne_time` stand for the `datetime.now()` readings. -/
def log_error (table : List ErrorEntry) (bubble_uid expert_name cronofy_id error_reason : String)
    (error_details : Option String) (now : Nat) (melbourne_time : String) : List ErrorEntry :=
  if table.any fun e => e.bubble_uid == bubble_uid then
    table.map fun e =>
      if e.bubble_uid == bubble_uid then
        { e with error_reason := error_reason, error_details := error_details,
                 unix_timestamp := now, melbourne_time := melbourne_time }
      else e
  else
    table ++ [{ bubble_uid := bubble_uid, expert_name := expert_name, cronofy_id := cronofy_id,
                error_reason := error_reason, error_details := error_details,
                unix_timestamp := now, melbourne_time := melbourne_time }]

/-- `AvailabilityError.clear_error`: `filter(bubble_uid=...).delete()` —
deletes whatever matches, raising nothing when nothing does. -/
def clear_error (table : List ErrorEntry) (bubble_uid : String) : List ErrorEntry :=
  table.filter fun e => e.bubble_uid != bubble_uid

/-! ## Expert deletion (`src/core/expert_utils.py`) -/

/-- The two lookup fields `delete_expert_by_identifier` accepts. -/
inductive LookupField where
  | bubble_uid
  | cronofy_id
  deriving Repr, DecidableEq

/-- `Expert.get_by_bubble_uid`. -/
def get_by_bubble_uid (rows : List Expert) (uid : String) : Option Expert :=
  rows.find? fun e => e.bubble_uid == uid

/-- `Expert.get_by_cronofy_id`. -/
def get_by_cronofy_id (rows : List Expert) (cronofy_id : String) : Option Expert :=
  rows.find? fun e => e.cronofy_id == cronofy_id

/-- The durable/process state `delete_expert_by_identifier` can touch:
the `experts` table, the `availability_errors` table, and the read
cache (modelled as its set of keys; `cache.clear()` empties it). -/
structure AppDB where
  experts : List Expert
  availability_errors : List ErrorEntry
  cache : List String
  deriving Repr, DecidableEq

/-- `delete_expert_by_identifier` (`src/core/expert_utils.py`): look the
expert up by the given field, 404 if absent, otherwise delete that
expert row, clear the read cache, and return the success message.  The
error value is the HTTP status of the raised `HTTPException`. -/
def delete_expert_by_identifier (db : AppDB) (identifier : String) (lookup_field : LookupField) :
    Except Nat (AppDB × String) :=
  let expertFound :=
    match lookup_field with
    | .bubble_uid => get_by_bubble_uid db.experts identifier
    | .cronofy_id => get_by_cronofy_id db.experts identifier
  match expertFound with
  | none => .error 404
  | some expert =>
    .ok ({ db with
            experts := db.experts.filter fun e => e.bubble_uid != expert.bubble_uid,
            cache := [] },
         "Expert " ++ expert.expert_name ++ " deleted successfully")

/-! ## Sync orchestrator (`src/services/expert_service.py`) -/

/-- The durable state the full refresh pass reads and writes: the
`experts` table and the `availability_errors` ledger (carried alongside
to make visible that the pass never touches it). -/
structure SyncState where
  experts : List Expert
  ledger : List ErrorEntry
  deriving Repr, DecidableEq

/-- The per-expert `try` body of
`ExpertService.update_all_expert_availability`'s inner loop: call the
record store's `update_availability` and append the Algolia record,
bumping `total_processed`; any local exception there (modelled by the
`proc_ok` oracle being `false`, or the record having vanished so that
`refresh_from_db` raises) is caught by the per-expert `except`, leaves
the record unchanged and bumps `total_failed`.  The Algolia-record
accumulation does not affect state or counts and is omitted. -/
def process_expert (now : Nat) (proc_ok : Expert → Bool)
    (acc : SyncState × Nat × Nat) (ea : Expert × AvailabilityData) : SyncState × Nat × Nat :=
  if proc_ok ea.1 then
    match update_availability acc.1.experts ea.1 ea.2.earliest_available_unix now with
    | some (rows, _) => ({ acc.1 with experts := rows }, acc.2.1 + 1, acc.2.2)
    | none => (acc.1, acc.2.1, acc.2.2 + 1)
  else (acc.1, acc.2.1, acc.2.2 + 1)

/-- The per-batch `try` body of `update_all_expert_availability`: fetch
the batch's availability, then process each `(expert, availability)`
pair of `zip(expert_batch, availability_results)`; a batch-level
exception adds the whole batch size to `total_failed` and continues.
The inter-batch `asyncio.sleep` is omitted. -/
def process_batch (token_set : Bool) (toEpoch : String → Int) (posts : Nat → PostOutcome)
    (jit : Nat → ℚ) (proc_ok : Expert → Bool) (now : Nat)
    (acc : SyncState × Nat × Nat) (expert_batch : List Expert) : SyncState × Nat × Nat :=
  match (fetch_experts_availability_batch token_set toEpoch posts jit expert_batch).1 with
  | .ok availability_results =>
    (List.zip expert_batch availability_results).foldl (process_expert now proc_ok) acc
  | .error _ => (acc.1, acc.2.1, acc.2.2 + expert_batch.length)

/-- `ExpertService.update_all_expert_availability`.  Oracles: `posts b i`
is the outcome of the `i`-th outbound POST of batch `b`'s provider
call, `jit b i` the corresponding jitter draw, and `proc_ok e` whether
the per-expert `try` body runs without a local exception for expert
`e`.  Returns the final state and the `(total_processed, total_failed)`
counts the pass logs.  The pass loads the roster once
(`Expert.get_all_ordered`; row order models recency order), partitions
it with `batch_experts(_, 10)`, and processes batches sequentially; the
final Algolia push is fire-and-forget and omitted.  The ledger is
carried through untouched: the source of this function contains no
`AvailabilityError` call. -/
def update_all_expert_availability (token_set : Bool) (toEpoch : String → Int)
    (posts : Nat → Nat → PostOutcome) (jit : Nat → Nat → ℚ) (proc_ok : Expert → Bool)
    (now : Nat) (st : SyncState) : SyncState × Nat × Nat :=
  let experts := st.experts
  if experts.isEmpty then (st, 0, 0)
  else
    (batch_experts experts 10).enum.foldl
      (fun acc ib => process_batch token_set toEpoch (posts ib.1) (jit ib.1) proc_ok now acc ib.2)
      (st, 0, 0)

/-! ## Concrete fixtures used by witnesses and counterexamples -/

/-- A concrete expert record, used to build test rosters. -/
def mkExpert (n : Nat) : Expert :=
  { expert_name := "Expert " ++ toString n
    cronofy_id := "cro_" ++ toString n
    calendar_ids := ["cal_" ++ toString n]
    bubble_uid := "uid_" ++ toString n
    last_availability_check := none
    earliest_available_unix := none
    version := 0 }

/-- A roster of `n` distinct experts. -/
def mkRoster (n : Nat) : List Expert := (List.range n).map mkExpert

/-- POST oracle for the 12-expert scenario of the spec's end-to-end
test: batch 0's call returns HTTP 200 with no slots, every POST of
batch 1's call times out. -/
def postsBatch1Timeout : Nat → Nat → PostOutcome :=
  fun batch_idx _ => if batch_idx == 0 then .response 200 { available_slots := [] } else .timeout

/-- C2 scenario: the stored row, whose version a concurrent writer has
already bumped to 1. -/
def rowV1 : Expert := { mkExpert 0 with version := 1 }

/-- C2 scenario: the caller's stale in-memory copy (version 0). -/
def staleSelf : Expert := mkExpert 0

/-- C9 scenario: an outstanding Error Ledger entry for expert `uid_0`. -/
def ledgerEntryU0 : ErrorEntry :=
  { bubble_uid := "uid_0", expert_name := "Expert 0", cronofy_id := "cro_0",
    error_reason := "API error", error_details := none, unix_timestamp := 50,
    melbourne_time := "2024-01-01 12:00:00 AEDT" }

/-- C9 scenario: a database holding expert `uid_0`, its ledger entry,
and a populated read cache. -/
def dbWithError : AppDB :=
  { experts := [mkExpert 0], availability_errors := [ledgerEntryU0],
    cache := ["experts_list_p1_l10"] }

/-- C9 scenario: the expected database after deleting expert `uid_0`:
the expert row gone, the cache cleared, the ledger entry still there. -/
def dbAfterDelete : AppDB :=
  { experts := [], availability_errors := [ledgerEntryU0], cache := [] }

/-- A later slot for subject `cA` (appears first in the array). -/
def slotLate : Slot :=
  { start := "2024-01-02T10:00:00Z", participants := [{ sub := "cA", uid := none }] }

/-- An earlier slot for subjects `cA` and `cB`. -/
def slotEarly : Slot :=
  { start := "2024-01-01T09:00:00Z",
    participants := [{ sub := "cA", uid := none }, { sub := "cB", uid := none }] }

/-- A provider response listing the later slot before the earlier one. -/
def respLateFirst : CronofyResponse := { available_slots := [slotLate, slotEarly] }

/-- A concrete epoch conversion consistent with the two fixture
timestamps. -/
def toEpochEx : String → Int :=
  fun s => if s = "2024-01-01T09:00:00Z" then 1704099600 else 1704189600

/-- Antisymmetry of `≤` on `ℤ` in the form `List.min?_eq_some_iff`
expects. -/
instance : Std.Antisymm fun x1 x2 : Int => x1 ≤ x2 :=
  ⟨fun h1 h2 => le_antisymm h1 h2⟩

/-! # Theorems -/

/-! ## Batching planner lemmas -/

theorem batch_experts_nil (M : Nat) : batch_experts [] M = [] := by
  unfold batch_experts
  have h : (List.length ([] : List Expert) + M - 1) / M = 0 := by
    cases M with
    | zero => rfl
    | succ m =>
      simp only [List.length_nil, Nat.zero_add, Nat.succ_sub_one]
      exact Nat.div_eq_of_lt (Nat.lt_succ_self m)
  rw [h]
  rfl

theorem batch_experts_cons {M : Nat} (hM : 0 < M) {l : List Expert} (hl : l ≠ []) :
    batch_experts l M = l.take M :: batch_experts (l.drop M) M := by
  have hn : 0 < l.length := List.length_pos.mpr hl
  have hcount : (l.length + M - 1) / M = ((l.drop M).length + M - 1) / M + 1 := by
    rw [List.length_drop]
    rcases le_or_lt l.length M with h | h
    · have h1 : l.length - M = 0 := Nat.sub_eq_zero_of_le h
      rw [h1]
      have h2 : (l.length + M - 1) / M = 1 := by
        apply Nat.div_eq_of_lt_le <;> omega
      have h3 : (0 + M - 1) / M = 0 := by
        apply Nat.div_eq_of_lt; omega
      rw [h2, h3]
    · have h4 : l.length + M - 1 = (l.length - M + M - 1) + M := by omega
      rw [h4, Nat.add_div_right _ hM]
  unfold batch_experts
  rw [hcount, List.range_succ_eq_map, List.map_cons, List.map_map]
  congr 1
  · simp
  · apply List.map_congr_left
    intro j _
    simp only [Function.comp_apply]
    rw [Nat.succ_mul, Nat.add_comm (j * M) M, ← List.drop_drop]

theorem batch_experts_flatten {M : Nat} (hM : 0 < M) (l : List Expert) :
    (batch_experts l M).flatten = l := by
  by_cases hl : l = []
  · subst hl; rw [batch_experts_nil]; rfl
  · rw [batch_experts_cons hM hl, List.flatten_cons, batch_experts_flatten hM (l.drop M),
      List.take_append_drop]
termination_by l.length
decreasing_by
  rw [List.length_drop]
  exact Nat.sub_lt (List.length_pos.mpr hl) hM

theorem batch_experts_ne_nil {M : Nat} (hM : 0 < M) {l : List Expert} (hl : l ≠ []) :
    batch_experts l M ≠ [] := by
  rw [batch_experts_cons hM hl]
  exact List.cons_ne_nil _ _

theorem batch_experts_dropLast_sizes {M : Nat} (hM : 0 < M) (l : List Expert) :
    ∀ b ∈ (batch_experts l M).dropLast, b.length = M := by
  by_cases hl : l = []
  · subst hl; rw [batch_experts_nil]; intro b hb; cases hb
  · rw [batch_experts_cons hM hl]
    by_cases hd : l.drop M = []
    · rw [hd, batch_experts_nil]
      intro b hb; cases hb
    · rw [List.dropLast_cons_of_ne_nil (batch_experts_ne_nil hM hd)]
      intro b hb
      rcases List.mem_cons.mp hb with rfl | hb
      · have hMlen : M ≤ l.length := by
          by_contra hcon
          exact hd (List.drop_eq_nil_of_le (Nat.le_of_lt (Nat.lt_of_not_le hcon)))
        rw [List.length_take]
        exact Nat.min_eq_left hMlen
      · exact batch_experts_dropLast_sizes hM (l.drop M) b hb
termination_by l.length
decreasing_by
  rw [List.length_drop]
  exact Nat.sub_lt (List.length_pos.mpr hl) hM

theorem batch_experts_last_size {M : Nat} (hM : 0 < M) (l : List Expert) (hl : l ≠ []) :
    ∀ b, (batch_experts l M).getLast? = some b →
      b.length = if l.length % M = 0 then M else l.length % M := by
  intro b hb
  rw [batch_experts_cons hM hl] at hb
  by_cases hd : l.drop M = []
  · have hlen : l.length ≤ M := List.drop_eq_nil_iff.mp hd
    rw [hd, batch_experts_nil, List.getLast?_singleton, Option.some_inj] at hb
    subst hb
    have hn : 0 < l.length := List.length_pos.mpr hl
    rw [List.length_take]
    rcases Nat.lt_or_ge l.length M with h | h
    · rw [Nat.mod_eq_of_lt h]
      have hne : l.length ≠ 0 := Nat.pos_iff_ne_zero.mp hn
      rw [if_neg hne]
      exact Nat.min_eq_right (Nat.le_of_lt h)
    · have heq : l.length = M := Nat.le_antisymm hlen h
      rw [heq]
      simp
  · obtain ⟨c, cs, hcs⟩ := List.exists_cons_of_ne_nil (batch_experts_ne_nil hM hd)
    rw [hcs, List.getLast?_cons_cons] at hb
    have ih := batch_experts_last_size hM (l.drop M) hd b (by rw [hcs]; exact hb)
    have hlen : M < l.length := by
      by_contra hcon
      exact hd (List.drop_eq_nil_of_le (Nat.le_of_not_lt hcon))
    rw [List.length_drop] at ih
    rw [ih]
    have hmod : (l.length - M) % M = l.length % M := by
      conv_rhs => rw [Nat.mod_eq_sub_mod (Nat.le_of_lt hlen)]
    rw [hmod]
termination_by l.length
decreasing_by
  rw [List.length_drop]
  exact Nat.sub_lt (List.length_pos.mpr hl) hM

theorem ceil_div_eq {M n : Nat} (hM : 0 < M) :
    (n + M - 1) / M = n / M + (if n % M = 0 then 0 else 1) := by
  have hdecomp := Nat.div_add_mod n M
  have hrlt : n % M < M := Nat.mod_lt _ hM
  by_cases h0 : n % M = 0
  · rw [if_pos h0]
    have h1 : n + M - 1 = M * (n / M) + (M - 1) := by omega
    rw [h1, Nat.mul_add_div hM, Nat.div_eq_of_lt (show M - 1 < M by omega)]
  · rw [if_neg h0]
    have hm1 : M * (n / M + 1) = M * (n / M) + M := by ring
    have h1 : n + M - 1 = M * (n / M + 1) + (n % M - 1) := by omega
    rw [h1, Nat.mul_add_div hM, Nat.div_eq_of_lt (show n % M - 1 < M by omega)]

/-- C6: for every roster of `N` experts and every `maxPerBatch = M > 0`,
`batch_experts` yields exactly `⌈N/M⌉ = N/M + (1 if N mod M ≠ 0 else 0)`
contiguous batches in roster order whose concatenation is the original
roster, all but the last of size `M`, the last of size `N mod M` (or `M`
when `M` divides `N`); for an empty roster it yields zero batches. -/
theorem batch_partitioning_spec (l : List Expert) (M : Nat) (hM : 0 < M) :
    (batch_experts l M).length = l.length / M + (if l.length % M = 0 then 0 else 1)
    ∧ (batch_experts l M).flatten = l
    ∧ (∀ b ∈ (batch_experts l M).dropLast, b.length = M)
    ∧ (∀ b, (batch_experts l M).getLast? = some b →
        b.length = if l.length % M = 0 then M else l.length % M)
    ∧ (l = [] → batch_experts l M = []) := by
  refine ⟨?_, batch_experts_flatten hM l, batch_experts_dropLast_sizes hM l, ?_, ?_⟩
  · have hlen : (batch_experts l M).length = (l.length + M - 1) / M := by
      unfold batch_experts
      rw [List.length_map, List.length_range]
    rw [hlen, ceil_div_eq hM]
  · intro b hb
    by_cases hl : l = []
    · subst hl; rw [batch_experts_nil] at hb; cases hb
    · exact batch_experts_last_size hM l hl b hb
  · intro hl; subst hl; exact batch_experts_nil M

/-- C6 witness: the 12-expert roster with `maxPerBatch = 10`. -/
theorem batch_partitioning_spec_witness :
    (batch_experts (mkRoster 12) 10).flatten = mkRoster 12
    ∧ (batch_experts (mkRoster 12) 10).length
        = (mkRoster 12).length / 10 + (if (mkRoster 12).length % 10 = 0 then 0 else 1) := by
  have h := batch_partitioning_spec (mkRoster 12) 10 (by norm_num)
  exact ⟨h.2.1, h.1⟩

/-! ## Provider-limit guard -/

/-- C7: submitting a batch whose size exceeds the provider's
per-request expert limit (the hard-coded 10 of
`fetch_experts_availability_batch`) fails fast with the validation
`ValueError` before any outbound provider call is made (the POST count
is 0), rather than silently truncating the batch. -/
theorem over_limit_fails_fast (token_set : Bool) (toEpoch : String → Int)
    (posts : Nat → PostOutcome) (jit : Nat → ℚ) (experts : List Expert)
    (h : experts.length > 10) :
    fetch_experts_availability_batch token_set toEpoch posts jit experts
      = (.error (.valueError ("Cannot batch more than 10 experts per request (got "
          ++ toString experts.length ++ ")")), 0) := by
  unfold fetch_experts_availability_batch
  rw [if_pos h]

/-- C7 witness: a batch of 11 experts. -/
theorem over_limit_fails_fast_witness :
    fetch_experts_availability_batch true (fun _ => 0) (fun _ => .timeout) (fun _ => 1)
        (mkRoster 11)
      = (.error (.valueError ("Cannot batch more than 10 experts per request (got "
          ++ toString (mkRoster 11).length ++ ")")), 0) :=
  over_limit_fails_fast true (fun _ => 0) (fun _ => .timeout) (fun _ => 1) (mkRoster 11)
    (by decide)

/-! ## Credential guard -/

/-- C4: for every provider-compliant batch (the glossary bounds a batch
by the provider's participant limit, here 10), when
`CRONOFY_ACCESS_TOKEN` is unset the batch availability fetch makes no
outbound call (POST count 0), attempts no retry, raises no exception
(the result is `ok`), and resolves every expert of the batch to a null
earliest availability. -/
theorem token_guard_null_availability (toEpoch : String → Int)
    (posts : Nat → PostOutcome) (jit : Nat → ℚ) (experts : List Expert)
    (h : experts.length ≤ 10) :
    fetch_experts_availability_batch false toEpoch posts jit experts
      = (.ok (experts.map fun expert =>
          { expert_id := expert.cronofy_id, earliest_available_unix := none }), 0) := by
  unfold fetch_experts_availability_batch
  rw [if_neg (by omega)]
  rfl

/-- C4 witness: a batch of 3 experts with the token unset. -/
theorem token_guard_null_availability_witness :
    fetch_experts_availability_batch false (fun _ => 0) (fun _ => .timeout) (fun _ => 1)
        (mkRoster 3)
      = (.ok ((mkRoster 3).map fun expert =>
          { expert_id := expert.cronofy_id, earliest_available_unix := none }), 0) :=
  token_guard_null_availability (fun _ => 0) (fun _ => .timeout) (fun _ => 1) (mkRoster 3)
    (by decide)

/-! ## Retry policy -/

/-- C3 (code bug): a provider call whose POST raises
`httpx.TimeoutException` on every attempt is not retried at all.  The
`except httpx.TimeoutException` handler inside
`fetch_cronofy_availability` re-raises the timeout as a plain
`Exception("Cronofy API request timed out")`, which is not an instance
of the `@with_retry` decorator's `exceptions` tuple, so the call fails
after exactly one attempt with no backoff sleep — even though that very
tuple declares `httpx.TimeoutException` retryable (second conjunct) and
a 5xx response is indeed retried to the ceiling of 4 attempts (third
conjunct). -/
theorem timeout_not_retried :
    fetch_cronofy_availability true [] (fun _ => .timeout) (fun _ => 1)
      = (.error (.exn "Cronofy API request timed out"), 1, [])
    ∧ retryable .timeoutException = true
    ∧ (fetch_cronofy_availability true [] (fun _ => .response 503 { available_slots := [] })
        (fun _ => 1)).2.1 = 4 :=
  ⟨rfl, rfl, rfl⟩

/-! ## Batch fetch totality -/

/-- C10: for every batch within the provider limit, the batch
availability fetch never raises: it returns `ok` with exactly one
`AvailabilityData` per input expert, in input order, each carrying that
expert's provider subject id (`cronofy_id`); and whenever the
underlying (decorated) provider fetch failed — or the token was unset —
every returned entry's earliest availability is null. -/
theorem batch_fetch_total (token_set : Bool) (toEpoch : String → Int)
    (posts : Nat → PostOutcome) (jit : Nat → ℚ) (experts : List Expert)
    (h : experts.length ≤ 10) :
    ∃ results : List AvailabilityData,
      (fetch_experts_availability_batch token_set toEpoch posts jit experts).1 = .ok results
      ∧ results.map (fun r => r.expert_id) = experts.map (fun e => e.cronofy_id)
      ∧ results.length = experts.length
      ∧ (token_set = false → ∀ r ∈ results, r.earliest_available_unix = none)
      ∧ (∀ err, (fetch_cronofy_availability token_set experts posts jit).1 = .error err →
          ∀ r ∈ results, r.earliest_available_unix = none) := by
  have hle : ¬ (experts.length > 10) := by omega
  cases token_set with
  | false =>
    refine ⟨experts.map fun e => { expert_id := e.cronofy_id, earliest_available_unix := none },
      ?_, ?_, ?_, ?_, ?_⟩
    · simp [fetch_experts_availability_batch, hle]
    · simp
    · simp
    · intro _ r hr
      rcases List.mem_map.mp hr with ⟨e, _, rfl⟩
      rfl
    · intro _ _ r hr
      rcases List.mem_map.mp hr with ⟨e, _, rfl⟩
      rfl
  | true =>
    rcases hfetch : (fetch_cronofy_availability true experts posts jit).1 with err | resp
    · refine ⟨experts.map fun e =>
          { expert_id := e.cronofy_id, earliest_available_unix := none }, ?_, ?_, ?_, ?_, ?_⟩
      · simp [fetch_experts_availability_batch, hle, hfetch]
      · simp
      · simp
      · intro hfalse; cases hfalse
      · intro _ _ r hr
        rcases List.mem_map.mp hr with ⟨e, _, rfl⟩
        rfl
    · refine ⟨experts.map fun e =>
          { expert_id := e.cronofy_id,
            earliest_available_unix :=
              find_earliest_available_slot_from_response toEpoch resp e.cronofy_id },
        ?_, ?_, ?_, ?_, ?_⟩
      · simp [fetch_experts_availability_batch, hle, hfetch]
      · simp
      · simp
      · intro hfalse; cases hfalse
      · intro err herr
        cases herr

/-- C10 witness: a batch of 2 experts whose provider call exhausts into
an error (every POST is a 503). -/
theorem batch_fetch_total_witness :
    ∃ results : List AvailabilityData,
      (fetch_experts_availability_batch true (fun _ => 0)
          (fun _ => .response 503 { available_slots := [] }) (fun _ => 1) (mkRoster 2)).1
        = .ok results
      ∧ results.map (fun r => r.expert_id) = (mkRoster 2).map (fun e => e.cronofy_id)
      ∧ results.length = (mkRoster 2).length
      ∧ (true = false → ∀ r ∈ results, r.earliest_available_unix = none)
      ∧ (∀ err, (fetch_cronofy_availability true (mkRoster 2)
            (fun _ => .response 503 { available_slots := [] }) (fun _ => 1)).1 = .error err →
          ∀ r ∈ results, r.earliest_available_unix = none) :=
  batch_fetch_total true (fun _ => 0) (fun _ => .response 503 { available_slots := [] })
    (fun _ => 1) (mkRoster 2) (by decide)

/-! ## Reconciliation -/

theorem mergeSort_head_min (l : List Slot) (hne : l ≠ []) :
    ∃ h, (l.mergeSort fun a b => a.start ≤ b.start).head? = some h
      ∧ h ∈ l ∧ ∀ x ∈ l, h.start ≤ x.start := by
  have htrans : ∀ a b c : Slot, (fun a b : Slot => (a.start ≤ b.start : Bool)) a b = true →
      (fun a b : Slot => (a.start ≤ b.start : Bool)) b c = true →
      (fun a b : Slot => (a.start ≤ b.start : Bool)) a c = true := by
    intro a b c hab hbc
    simp only [decide_eq_true_eq] at *
    exact le_trans hab hbc
  have htotal : ∀ a b : Slot, ((fun a b : Slot => (a.start ≤ b.start : Bool)) a b
      || (fun a b : Slot => (a.start ≤ b.start : Bool)) b a) = true := by
    intro a b
    simp only [Bool.or_eq_true, decide_eq_true_eq]
    exact le_total a.start b.start
  have hsorted := List.sorted_mergeSort htrans htotal l
  have hperm := List.mergeSort_perm l (fun a b => a.start ≤ b.start)
  rcases hms : l.mergeSort fun a b => a.start ≤ b.start with _ | ⟨h, t⟩
  · exfalso
    rw [hms] at hperm
    exact hne (hperm.symm.eq_nil)
  · rw [hms] at hsorted hperm
    refine ⟨h, rfl, hperm.mem_iff.mp (List.mem_cons_self h t), ?_⟩
    intro x hx
    rcases List.mem_cons.mp (hperm.mem_iff.mpr hx) with rfl | hxt
    · exact le_refl x.start
    · have := (List.pairwise_cons.mp hsorted).1 x hxt
      simpa using this

theorem int_min?_eq {l : List Int} {a : Int} (ha : a ∈ l) (hmin : ∀ b ∈ l, a ≤ b) :
    l.min? = some a := by
  rw [List.min?_eq_some_iff (fun a => le_refl a) (fun a b => min_choice a b)
    (fun a b c => le_min_iff)]
  exact ⟨ha, hmin⟩

theorem int_min?_perm {l1 l2 : List Int} (hp : l1.Perm l2) : l1.min? = l2.min? := by
  rcases hl : l1.min? with _ | a
  · rw [List.min?_eq_none_iff] at hl
    subst hl
    rw [hp.symm.eq_nil]
    rfl
  · have hchar := (List.min?_eq_some_iff (fun a => le_refl a) (fun a b => min_choice a b)
      (fun a b c => le_min_iff)).mp hl
    exact (int_min?_eq (hp.mem_iff.mp hchar.1) fun b hb =>
      hchar.2 b (hp.mem_iff.mpr hb)).symm

theorem find_earliest_eq_min (toEpoch : String → Int) (resp : CronofyResponse) (id : String)
    (hwf : ∀ s ∈ matching_slots resp id, s.start ≠ "") :
    find_earliest_available_slot_from_response toEpoch resp id
      = ((matching_slots resp id).mergeSort (fun a b => a.start ≤ b.start)).head?.map
          (fun s => toEpoch s.start) := by
  by_cases hm : matching_slots resp id = []
  · rw [find_earliest_available_slot_from_response, hm]
    simp
  · have hslots : ¬ resp.available_slots.isEmpty := by
      intro hcon
      rw [List.isEmpty_iff] at hcon
      apply hm
      rw [matching_slots, hcon]
      rfl
    obtain ⟨h, hhead, hmem, _⟩ := mergeSort_head_min (matching_slots resp id) hm
    rw [find_earliest_available_slot_from_response]
    simp only []
    rw [if_neg hslots, if_neg (by simpa [List.isEmpty_iff] using hm), hhead]
    have hne : (h.start == "") = false := beq_eq_false_iff_ne.mpr (hwf h hmem)
    simp [hne]

theorem matching_slots_perm {resp resp2 : CronofyResponse} (id : String)
    (hp : resp2.available_slots.Perm resp.available_slots) :
    (matching_slots resp2 id).Perm (matching_slots resp id) :=
  hp.filter _

/-- C5: given a provider response, the resolved earliest time for a
subject is the minimum (under the epoch conversion, assumed monotone
w.r.t. the lexicographic order on the well-formed canonical timestamps
occurring in the matching slots) of the start times over all slots whose
participant set includes that subject; the result is the same for any
permutation of the slot array; and a subject matching no slot resolves
to null rather than an error. -/
theorem reconciliation_earliest (toEpoch : String → Int) (resp : CronofyResponse) (id : String)
    (hwf : ∀ s ∈ matching_slots resp id, s.start ≠ "")
    (hmono : ∀ s ∈ matching_slots resp id, ∀ t ∈ matching_slots resp id,
      s.start ≤ t.start → toEpoch s.start ≤ toEpoch t.start) :
    find_earliest_available_slot_from_response toEpoch resp id
      = ((matching_slots resp id).map fun s => toEpoch s.start).min?
    ∧ (∀ resp2 : CronofyResponse, resp2.available_slots.Perm resp.available_slots →
        find_earliest_available_slot_from_response toEpoch resp2 id
          = find_earliest_available_slot_from_response toEpoch resp id)
    ∧ (matching_slots resp id = [] →
        find_earliest_available_slot_from_response toEpoch resp id = none) := by
  have hmain : find_earliest_available_slot_from_response toEpoch resp id
      = ((matching_slots resp id).map fun s => toEpoch s.start).min? := by
    by_cases hm : matching_slots resp id = []
    · rw [find_earliest_eq_min toEpoch resp id hwf, hm]
      simp
    · obtain ⟨h, hhead, hmem, hminimal⟩ := mergeSort_head_min (matching_slots resp id) hm
      rw [find_earliest_eq_min toEpoch resp id hwf, hhead]
      have : ((matching_slots resp id).map fun s => toEpoch s.start).min?
          = some (toEpoch h.start) := by
        apply int_min?_eq (List.mem_map_of_mem _ hmem)
        intro b hb
        rcases List.mem_map.mp hb with ⟨x, hx, rfl⟩
        exact hmono h hmem x hx (hminimal x hx)
      rw [this]
      rfl
  refine ⟨hmain, ?_, ?_⟩
  · intro resp2 hp
    have hpm := matching_slots_perm id hp
    have hwf2 : ∀ s ∈ matching_slots resp2 id, s.start ≠ "" := by
      intro s hs
      exact hwf s (hpm.mem_iff.mp hs)
    have hmono2 : ∀ s ∈ matching_slots resp2 id, ∀ t ∈ matching_slots resp2 id,
        s.start ≤ t.start → toEpoch s.start ≤ toEpoch t.start := by
      intro s hs t ht
      exact hmono s (hpm.mem_iff.mp hs) t (hpm.mem_iff.mp ht)
    have hmain2 : find_earliest_available_slot_from_response toEpoch resp2 id
        = ((matching_slots resp2 id).map fun s => toEpoch s.start).min? := by
      by_cases hm2 : matching_slots resp2 id = []
      · rw [find_earliest_eq_min toEpoch resp2 id hwf2, hm2]
        simp
      · obtain ⟨h, hhead, hmem, hminimal⟩ := mergeSort_head_min (matching_slots resp2 id) hm2
        rw [find_earliest_eq_min toEpoch resp2 id hwf2, hhead]
        have : ((matching_slots resp2 id).map fun s => toEpoch s.start).min?
            = some (toEpoch h.start) := by
          apply int_min?_eq (List.mem_map_of_mem _ hmem)
          intro b hb
          rcases List.mem_map.mp hb with ⟨x, hx, rfl⟩
          exact hmono2 h hmem x hx (hminimal x hx)
        rw [this]
        rfl
    rw [hmain, hmain2]
    exact int_min?_perm (hpm.map _)
  · intro hm
    rw [hmain, hm]
    rfl

/-- C5 witness: a response listing the later slot for subject `cA`
before the earlier one; the resolved earliest time is the minimum, the
order of the two slots does not matter, and the unknown subject `cX`
resolves to null. -/
theorem reconciliation_earliest_witness :
    find_earliest_available_slot_from_response toEpochEx respLateFirst "cA"
      = ((matching_slots respLateFirst "cA").map fun s => toEpochEx s.start).min?
    ∧ (∀ resp2 : CronofyResponse,
        resp2.available_slots.Perm respLateFirst.available_slots →
        find_earliest_available_slot_from_response toEpochEx resp2 "cA"
          = find_earliest_available_slot_from_response toEpochEx respLateFirst "cA")
    ∧ (matching_slots respLateFirst "cA" = [] →
        find_earliest_available_slot_from_response toEpochEx respLateFirst "cA" = none) :=
  reconciliation_earliest toEpochEx respLateFirst "cA" (by decide)
    (by
      have hm : matching_slots respLateFirst "cA" = [slotLate, slotEarly] := by decide
      have hlt : slotEarly.start < slotLate.start := by
        rw [String.lt_iff_toList_lt]
        decide
      intro s hs t ht hle
      rw [hm] at hs ht
      rcases List.mem_cons.mp hs with rfl | hs2
      · rcases List.mem_cons.mp ht with rfl | ht2
        · exact le_refl _
        · rcases List.mem_singleton.mp ht2 with rfl
          exact absurd hle (not_le.mpr hlt)
      · rcases List.mem_singleton.mp hs2 with rfl
        rcases List.mem_cons.mp ht with rfl | ht2
        · decide
        · rcases List.mem_singleton.mp ht2 with rfl
          exact le_refl _)

/-! ## Error ledger -/

theorem filter_uid_nil {rest : List ErrorEntry} {uid : String}
    (h : uid ∉ rest.map fun e => e.bubble_uid) :
    rest.filter (fun e => e.bubble_uid == uid) = [] := by
  rw [List.filter_eq_nil_iff]
  intro e he
  simp only [beq_iff_eq]
  intro hcon
  exact h (hcon ▸ List.mem_map_of_mem _ he)

theorem filter_uid_singleton {table : List ErrorEntry} {uid : String}
    (hnd : (table.map fun e => e.bubble_uid).Nodup)
    (hany : table.any (fun e => e.bubble_uid == uid) = true) :
    ∃ e0, table.filter (fun e => e.bubble_uid == uid) = [e0] ∧ e0.bubble_uid = uid := by
  induction table with
  | nil => cases hany
  | cons e rest ih =>
    rw [List.map_cons, List.nodup_cons] at hnd
    by_cases hk : e.bubble_uid = uid
    · refine ⟨e, ?_, hk⟩
      rw [List.filter_cons_of_pos (by simpa using hk), filter_uid_nil (hk ▸ hnd.1)]
    · have hany2 : rest.any (fun e => e.bubble_uid == uid) = true := by
        simp only [List.any_cons, Bool.or_eq_true] at hany
        rcases hany with h1 | h2
        · exact absurd (by simpa using h1) hk
        · exact h2
      obtain ⟨e0, h1, h2⟩ := ih hnd.2 hany2
      exact ⟨e0, by rw [List.filter_cons_of_neg (by simpa using hk), h1], h2⟩

theorem log_error_keys (table : List ErrorEntry) (uid n c r : String) (d : Option String)
    (t : Nat) (m : String) :
    (log_error table uid n c r d t m).map (fun e => e.bubble_uid)
      = if table.any (fun e => e.bubble_uid == uid) then table.map (fun e => e.bubble_uid)
        else (table.map fun e => e.bubble_uid) ++ [uid] := by
  unfold log_error
  split
  case isTrue h =>
    rw [List.map_map]
    apply List.map_congr_left
    intro e _
    simp only [Function.comp_apply]
    split <;> rfl
  case isFalse h =>
    rw [List.map_append]
    rfl

theorem log_error_filter (table : List ErrorEntry) (uid n c r : String) (d : Option String)
    (t : Nat) (m : String) :
    (log_error table uid n c r d t m).filter (fun e => e.bubble_uid == uid)
      = if table.any (fun e => e.bubble_uid == uid) then
          (table.filter (fun e => e.bubble_uid == uid)).map
            (fun e => { e with error_reason := r, error_details := d,
                               unix_timestamp := t, melbourne_time := m })
        else [{ bubble_uid := uid, expert_name := n, cronofy_id := c, error_reason := r,
                error_details := d, unix_timestamp := t, melbourne_time := m }] := by
  unfold log_error
  split
  case isTrue h =>
    rw [List.filter_map]
    have hco : (fun e : ErrorEntry => e.bubble_uid == uid) ∘
        (fun e : ErrorEntry =>
          if e.bubble_uid == uid then
            { e with error_reason := r, error_details := d,
                     unix_timestamp := t, melbourne_time := m }
          else e)
        = fun e : ErrorEntry => e.bubble_uid == uid := by
      funext e
      simp only [Function.comp_apply]
      split <;> rfl
    rw [hco]
    apply List.map_congr_left
    intro e he
    rw [if_pos (List.mem_filter.mp he).2]
  case isFalse h =>
    rw [List.filter_append, List.filter_eq_nil_iff.mpr, List.nil_append,
      List.filter_cons_of_pos (by simp)]
    · rfl
    · intro e he
      simp only [beq_iff_eq]
      intro hcon
      apply h
      rw [List.any_eq_true]
      exact ⟨e, he, by simpa using hcon⟩

theorem log_error_any (table : List ErrorEntry) (uid n c r : String) (d : Option String)
    (t : Nat) (m : String) :
    (log_error table uid n c r d t m).any (fun e => e.bubble_uid == uid) = true := by
  rw [List.any_eq_true]
  unfold log_error
  split
  case isTrue h =>
    rw [List.any_eq_true] at h
    obtain ⟨e, he, hke⟩ := h
    refine ⟨if e.bubble_uid == uid then
        { e with error_reason := r, error_details := d,
                 unix_timestamp := t, melbourne_time := m }
      else e, List.mem_map_of_mem _ he, ?_⟩
    rw [if_pos hke]
    exact hke
  case isFalse h =>
    exact ⟨_, List.mem_append_right _ (List.mem_singleton_self _), by simp⟩

/-- C8: the error ledger holds at most one entry per UID.  Starting from
any table whose primary-key column is duplicate-free: logging an error
for the same UID twice leaves exactly one entry for that UID, carrying
the latest reason, details and timestamps; a subsequent success
(`clear_error`) removes the entry; `clear_error` is idempotent, total
(it is a plain filter, raising nothing), and a no-op when no entry
exists; and both operations preserve key uniqueness, so a listing never
contains two entries with the same UID. -/
theorem error_ledger_spec (table : List ErrorEntry)
    (hnd : (table.map fun e => e.bubble_uid).Nodup)
    (uid n1 c1 r1 : String) (d1 : Option String) (t1 : Nat) (m1 : String)
    (n2 c2 r2 : String) (d2 : Option String) (t2 : Nat) (m2 : String) :
    (∃ nm cf,
      (log_error (log_error table uid n1 c1 r1 d1 t1 m1) uid n2 c2 r2 d2 t2 m2).filter
          (fun e => e.bubble_uid == uid)
        = [{ bubble_uid := uid, expert_name := nm, cronofy_id := cf, error_reason := r2,
             error_details := d2, unix_timestamp := t2, melbourne_time := m2 }])
    ∧ (clear_error (log_error table uid n1 c1 r1 d1 t1 m1) uid).find?
        (fun e => e.bubble_uid == uid) = none
    ∧ clear_error (clear_error table uid) uid = clear_error table uid
    ∧ (table.find? (fun e => e.bubble_uid == uid) = none → clear_error table uid = table)
    ∧ ((log_error table uid n1 c1 r1 d1 t1 m1).map fun e => e.bubble_uid).Nodup
    ∧ ((clear_error table uid).map fun e => e.bubble_uid).Nodup := by
  have hclear_nodup : ((clear_error table uid).map fun e => e.bubble_uid).Nodup :=
    hnd.sublist ((table.filter_sublist).map _)
  refine ⟨?_, ?_, ?_, ?_, ?_, hclear_nodup⟩
  · rw [log_error_filter, if_pos (log_error_any table uid n1 c1 r1 d1 t1 m1),
      log_error_filter]
    by_cases h : table.any (fun e => e.bubble_uid == uid) = true
    · rw [if_pos h]
      obtain ⟨e0, he0, hk0⟩ := filter_uid_singleton hnd h
      rw [he0]
      refine ⟨e0.expert_name, e0.cronofy_id, ?_⟩
      rw [List.map_cons, List.map_nil, hk0]
      simp
    · rw [if_neg h]
      exact ⟨n1, c1, rfl⟩
  · rw [List.find?_eq_none]
    intro e he
    have := (List.mem_filter.mp he).2
    simp only [bne_iff_ne, ne_eq] at this
    simpa using this
  · unfold clear_error
    rw [List.filter_filter]
    apply List.filter_congr
    intro e _
    rw [Bool.and_self]
  · intro hnone
    rw [List.find?_eq_none] at hnone
    apply List.filter_eq_self.mpr
    intro e he
    simpa using hnone e he
  · rw [log_error_keys]
    by_cases h : table.any (fun e => e.bubble_uid == uid) = true
    · rw [if_pos h]
      exact hnd
    · rw [if_neg h]
      have huid : uid ∉ table.map fun e => e.bubble_uid := by
        intro hcon
        rcases List.mem_map.mp hcon with ⟨e, he, hke⟩
        apply h
        rw [List.any_eq_true]
        exact ⟨e, he, by simpa using hke⟩
      simp [List.nodup_append, hnd, huid]

/-- C8 witness: a concrete two-entry table. -/
theorem error_ledger_spec_witness :
    (∃ nm cf,
      (log_error (log_error [⟨"v", "N", "C", "old", none, 5, "M"⟩] "u" "n1" "c1" "r1" none 10 "m1")
          "u" "n2" "c2" "r2" (some "dd") 20 "m2").filter (fun e => e.bubble_uid == "u")
        = [{ bubble_uid := "u", expert_name := nm, cronofy_id := cf, error_reason := "r2",
             error_details := some "dd", unix_timestamp := 20, melbourne_time := "m2" }])
    ∧ (clear_error (log_error [⟨"v", "N", "C", "old", none, 5, "M"⟩] "u" "n1" "c1" "r1" none 10 "m1")
        "u").find? (fun e => e.bubble_uid == "u") = none
    ∧ clear_error (clear_error [⟨"v", "N", "C", "old", none, 5, "M"⟩] "u") "u"
        = clear_error [⟨"v", "N", "C", "old", none, 5, "M"⟩] "u"
    ∧ (([⟨"v", "N", "C", "old", none, 5, "M"⟩] : List ErrorEntry).find?
        (fun e => e.bubble_uid == "u") = none →
        clear_error [⟨"v", "N", "C", "old", none, 5, "M"⟩] "u"
          = [⟨"v", "N", "C", "old", none, 5, "M"⟩])
    ∧ ((log_error [⟨"v", "N", "C", "old", none, 5, "M"⟩] "u" "n1" "c1" "r1" none 10 "m1").map
        fun e => e.bubble_uid).Nodup
    ∧ ((clear_error [⟨"v", "N", "C", "old", none, 5, "M"⟩] "u").map
        fun e => e.bubble_uid).Nodup :=
  error_ledger_spec [⟨"v", "N", "C", "old", none, 5, "M"⟩] (by simp)
    "u" "n1" "c1" "r1" none 10 "m1" "n2" "c2" "r2" (some "dd") 20 "m2"

/-! ## Record store optimistic locking -/

theorem expert_filter_nil {rest : List Expert} {uid : String} (p : Expert → Bool)
    (h : uid ∉ rest.map fun r => r.bubble_uid)
    (hp : ∀ r, p r = true → r.bubble_uid = uid) :
    rest.filter p = [] := by
  rw [List.filter_eq_nil_iff]
  intro r hr hcon
  exact h ((hp r hcon) ▸ List.mem_map_of_mem _ hr)

theorem filter_key_version {rows : List Expert} {uid : String} {r0 : Expert} (v : Nat)
    (hnd : (rows.map fun r => r.bubble_uid).Nodup)
    (hfind : rows.find? (fun r => r.bubble_uid == uid) = some r0) :
    rows.filter (fun r => r.bubble_uid == uid && r.version == v)
      = if r0.version = v then [r0] else [] := by
  induction rows with
  | nil => cases hfind
  | cons r rest ih =>
    rw [List.map_cons, List.nodup_cons] at hnd
    by_cases hk : r.bubble_uid = uid
    · rw [List.find?_cons_of_pos _ (by simpa using hk)] at hfind
      injection hfind with h0
      subst h0
      have hrest : rest.filter (fun r => r.bubble_uid == uid && r.version == v) = [] :=
        expert_filter_nil _ (hk ▸ hnd.1) (fun r hp => by
          simp only [Bool.and_eq_true, beq_iff_eq] at hp
          exact hp.1)
      by_cases hv : r.version = v
      · rw [if_pos hv, List.filter_cons_of_pos (by simp [hk, hv]), hrest]
      · rw [if_neg hv, List.filter_cons_of_neg (by simp [hk, hv]), hrest]
    · rw [List.find?_cons_of_neg _ (by simpa using hk)] at hfind
      rw [List.filter_cons_of_neg (by simp [hk])]
      exact ih hnd.2 hfind

/-- C2 (amended): `update_availability` reads the current version and
attempts a conditional update matched on `(uid, version)` that sets the
check timestamp, the earliest-slot value and `version + 1`; if zero rows
are affected it reloads the record and retries exactly once, but the
retry is an **unconditional** update matched on `uid` alone (setting
`version` to the refreshed version + 1); a conflict is never surfaced
to the caller as a failure (the result is `some` whenever the row
exists); and the in-memory copy's version equals the store's afterward
only on the conflict-free path — after the retry path it is left one
behind the store (at the refreshed pre-write version). -/
theorem update_availability_spec (rows : List Expert) (self : Expert)
    (earliest : Option Int) (now : Nat) (r0 : Expert)
    (hnd : (rows.map fun r => r.bubble_uid).Nodup)
    (hfind : rows.find? (fun r => r.bubble_uid == self.bubble_uid) = some r0) :
    ∃ rows1 self1,
      update_availability rows self earliest now = some (rows1, self1)
      ∧ rows1.find? (fun r => r.bubble_uid == self.bubble_uid)
          = some { r0 with last_availability_check := some now,
                           earliest_available_unix := earliest,
                           version := r0.version + 1 }
      ∧ (∀ r ∈ rows, r.bubble_uid ≠ self.bubble_uid → r ∈ rows1)
      ∧ rows1.length = rows.length
      ∧ self1.version
          = (if r0.version = self.version then r0.version + 1 else r0.version) := by
  have hk0 : (r0.bubble_uid == self.bubble_uid) = true := by
    have hx := List.find?_some hfind
    simpa using hx
  have hfk := filter_key_version self.version hnd hfind
  simp only [update_availability]
  by_cases hv : r0.version = self.version
  · rw [hfk, if_pos hv]
    simp only [List.length_cons, List.length_nil, Nat.reduceBEq, Bool.false_eq_true,
      if_false]
    refine ⟨_, _, rfl, ?_, ?_, List.length_map .., ?_⟩
    · rw [List.find?_map]
      have hco : ((fun r : Expert => r.bubble_uid == self.bubble_uid) ∘
          (fun r : Expert =>
            if r.bubble_uid == self.bubble_uid && r.version == self.version then
              { r with last_availability_check := some now,
                       earliest_available_unix := earliest,
                       version := self.version + 1 }
            else r))
          = fun r : Expert => r.bubble_uid == self.bubble_uid := by
        funext r
        simp only [Function.comp_apply]
        split <;> rfl
      rw [hco, hfind, Option.map_some']
      have hcond : (r0.bubble_uid == self.bubble_uid && r0.version == self.version) = true := by
        simp only [Bool.and_eq_true, beq_iff_eq]
        exact ⟨by simpa using hk0, hv⟩
      rw [if_pos hcond, hv]
    · intro r hr hne
      refine List.mem_map.mpr ⟨r, hr, ?_⟩
      rw [if_neg (by simp [hne])]
    · simp only [hv, if_pos trivial, if_true]
  · rw [hfk, if_neg hv]
    simp only [List.length_nil, Nat.reduceBEq, if_true]
    rw [hfind]
    refine ⟨_, _, rfl, ?_, ?_, List.length_map .., ?_⟩
    · rw [List.find?_map]
      have hco : ((fun r : Expert => r.bubble_uid == self.bubble_uid) ∘
          (fun r : Expert =>
            if r.bubble_uid == self.bubble_uid then
              { r with last_availability_check := some now,
                       earliest_available_unix := earliest,
                       version := r0.version + 1 }
            else r))
          = fun r : Expert => r.bubble_uid == self.bubble_uid := by
        funext r
        simp only [Function.comp_apply]
        split <;> rfl
      rw [hco, hfind, Option.map_some', if_pos (by simpa using hk0)]
    · intro r hr hne
      refine List.mem_map.mpr ⟨r, hr, ?_⟩
      rw [if_neg (by simp [hne])]
    · rw [if_neg hv]

/-- C2 witness: the stale-copy conflict scenario (store at version 1,
in-memory copy at version 0). -/
theorem update_availability_spec_witness :
    ∃ rows1 self1,
      update_availability [rowV1] staleSelf (some 5) 100 = some (rows1, self1)
      ∧ rows1.find? (fun r => r.bubble_uid == staleSelf.bubble_uid)
          = some { rowV1 with last_availability_check := some 100,
                              earliest_available_unix := some 5,
                              version := rowV1.version + 1 }
      ∧ (∀ r ∈ [rowV1], r.bubble_uid ≠ staleSelf.bubble_uid → r ∈ rows1)
      ∧ rows1.length = ([rowV1] : List Expert).length
      ∧ self1.version
          = (if rowV1.version = staleSelf.version then rowV1.version + 1
             else rowV1.version) :=
  update_availability_spec [rowV1] staleSelf (some 5) 100 rowV1 (by decide) (by decide)

/-- C2 counterexample: with the store already at version 1 and the
caller's in-memory copy stale at version 0, `update_availability` takes
its retry path and returns with the store row at version 2 but the
in-memory copy still at version 1 — so the claim's "the in-memory
copy's version is resynchronized with the store afterward in every
case" is false (and the retry performed is the unconditional
`filter(bubble_uid=...)` update, not a conditional `(uid, version)`
one). -/
theorem update_availability_stale_copy_cex :
    (update_availability [rowV1] staleSelf (some 5) 100).map
        (fun p => (p.1.map fun r => r.version, p.2.version))
      = some ([2], 1) := by decide


/-! ## Expert deletion and the ledger -/

/-- C9 (amended): a successful explicit deletion (whether addressed by
UID or by provider id) removes the expert row and clears the read
cache, but leaves the Error Ledger completely unchanged — the deletion
path contains no `availability_errors` operation, so an outstanding
ledger entry for the deleted expert's UID survives the delete (it is
removed only by a later successful sync for that UID). -/
theorem delete_expert_leaves_ledger (db : AppDB) (identifier : String) (f : LookupField)
    (db1 : AppDB) (msg : String)
    (hok : delete_expert_by_identifier db identifier f = .ok (db1, msg)) :
    db1.availability_errors = db.availability_errors
    ∧ db1.cache = []
    ∧ ∃ expert,
        (match f with
         | .bubble_uid => get_by_bubble_uid db.experts identifier
         | .cronofy_id => get_by_cronofy_id db.experts identifier) = some expert
        ∧ db1.experts = db.experts.filter fun e => e.bubble_uid != expert.bubble_uid := by
  simp only [delete_expert_by_identifier] at hok
  rcases hm : (match f with
         | .bubble_uid => get_by_bubble_uid db.experts identifier
         | .cronofy_id => get_by_cronofy_id db.experts identifier) with _ | expert
  · rw [hm] at hok
    cases hok
  · rw [hm] at hok
    injection hok with h1
    have h2 := congrArg Prod.fst h1
    simp only at h2
    subst h2
    exact ⟨rfl, rfl, expert, hm, rfl⟩

/-- C9 witness: deleting `uid_0` from the fixture database. -/
theorem delete_expert_leaves_ledger_witness :
    dbAfterDelete.availability_errors = dbWithError.availability_errors
    ∧ dbAfterDelete.cache = []
    ∧ ∃ expert,
        (match LookupField.bubble_uid with
         | .bubble_uid => get_by_bubble_uid dbWithError.experts "uid_0"
         | .cronofy_id => get_by_cronofy_id dbWithError.experts "uid_0") = some expert
        ∧ dbAfterDelete.experts
            = dbWithError.experts.filter fun e => e.bubble_uid != expert.bubble_uid :=
  delete_expert_leaves_ledger dbWithError "uid_0" .bubble_uid dbAfterDelete
    "Expert Expert 0 deleted successfully" rfl

/-- C9 counterexample: deleting expert `uid_0` succeeds — the expert
row is removed and the cache cleared — yet the Error Ledger entry for
`uid_0` is still present afterwards, refuting "after a successful
delete no ledger entry for that UID remains". -/
theorem delete_keeps_ledger_cex :
    delete_expert_by_identifier dbWithError "uid_0" .bubble_uid
      = .ok (dbAfterDelete, "Expert Expert 0 deleted successfully")
    ∧ ledgerEntryU0 ∈ dbAfterDelete.availability_errors
    ∧ ledgerEntryU0.bubble_uid = "uid_0" :=
  ⟨rfl, by decide, by decide⟩


/-! ## Full refresh pass -/

theorem batch_fetch_shape (token_set : Bool) (toEpoch : String → Int)
    (posts : Nat → PostOutcome) (jit : Nat → ℚ) (experts : List Expert)
    (h : experts.length ≤ 10) :
    ∃ g : Expert → Option Int,
      (fetch_experts_availability_batch token_set toEpoch posts jit experts).1
        = .ok (experts.map fun e =>
            { expert_id := e.cronofy_id, earliest_available_unix := g e }) := by
  have hle : ¬ (experts.length > 10) := by omega
  cases token_set with
  | false => exact ⟨fun _ => none, by simp [fetch_experts_availability_batch, hle]⟩
  | true =>
    rcases hfetch : (fetch_cronofy_availability true experts posts jit).1 with err | resp
    · exact ⟨fun _ => none, by simp [fetch_experts_availability_batch, hle, hfetch]⟩
    · exact ⟨fun e => find_earliest_available_slot_from_response toEpoch resp e.cronofy_id,
        by simp [fetch_experts_availability_batch, hle, hfetch]⟩

theorem update_availability_preserves (rows : List Expert) (self : Expert)
    (earliest : Option Int) (now : Nat)
    (hmem : self.bubble_uid ∈ rows.map fun r => r.bubble_uid) :
    ∃ rows1 self1, update_availability rows self earliest now = some (rows1, self1)
      ∧ rows1.map (fun r => r.bubble_uid) = rows.map fun r => r.bubble_uid := by
  simp only [update_availability]
  by_cases h0 : ((rows.filter fun r =>
      r.bubble_uid == self.bubble_uid && r.version == self.version).length == 0) = true
  · rw [if_pos h0]
    obtain ⟨r, hr, hkr⟩ := List.mem_map.mp hmem
    have hsome : (rows.find? fun r => r.bubble_uid == self.bubble_uid).isSome :=
      List.find?_isSome.mpr ⟨r, hr, by simpa using hkr⟩
    obtain ⟨r0, hr0⟩ := Option.isSome_iff_exists.mp hsome
    rw [hr0]
    refine ⟨_, _, rfl, ?_⟩
    rw [List.map_map]
    apply List.map_congr_left
    intro x _
    simp only [Function.comp_apply]
    split <;> rfl
  · rw [if_neg h0]
    refine ⟨_, _, rfl, ?_⟩
    rw [List.map_map]
    apply List.map_congr_left
    intro x _
    simp only [Function.comp_apply]
    split <;> rfl

theorem process_experts_fold (now : Nat) (batch : List Expert) :
    ∀ (avails : List AvailabilityData), batch.length ≤ avails.length →
    ∀ (st : SyncState) (p f : Nat),
    (∀ e ∈ batch, e.bubble_uid ∈ st.experts.map fun r => r.bubble_uid) →
    ∃ st1, (List.zip batch avails).foldl (process_expert now fun _ => true) (st, p, f)
        = (st1, p + batch.length, f)
      ∧ st1.ledger = st.ledger
      ∧ st1.experts.map (fun r => r.bubble_uid) = st.experts.map fun r => r.bubble_uid := by
  induction batch with
  | nil =>
    intro avails _ st p f _
    exact ⟨st, by simp, rfl, rfl⟩
  | cons e bt ih =>
    intro avails hlen st p f hkeys
    cases avails with
    | nil => simp at hlen
    | cons a at2 =>
      obtain ⟨rows1, self1, hupd, hkeys1⟩ := update_availability_preserves st.experts e
        a.earliest_available_unix now (hkeys e (List.mem_cons_self e bt))
      have hstep : process_expert now (fun _ => true) (st, p, f) (e, a)
          = ({ st with experts := rows1 }, p + 1, f) := by
        simp [process_expert, hupd]
      rw [List.zip_cons_cons, List.foldl_cons, hstep]
      obtain ⟨st1, hfold, hled, hkeys2⟩ := ih at2 (by simpa using hlen)
        { st with experts := rows1 } (p + 1) f
        (fun e2 he2 => by
          have hin := hkeys e2 (List.mem_cons_of_mem _ he2)
          simpa [hkeys1] using hin)
      refine ⟨st1, ?_, hled, by rw [hkeys2]; exact hkeys1⟩
      rw [hfold, List.length_cons,
        show p + (bt.length + 1) = p + 1 + bt.length from by omega]

theorem process_batch_total (toEpoch : String → Int) (posts : Nat → PostOutcome)
    (jit : Nat → ℚ) (now : Nat) (batch : List Expert) (st : SyncState) (p f : Nat)
    (hlen : batch.length ≤ 10)
    (hkeys : ∀ e ∈ batch, e.bubble_uid ∈ st.experts.map fun r => r.bubble_uid) :
    ∃ st1, process_batch true toEpoch posts jit (fun _ => true) now (st, p, f) batch
        = (st1, p + batch.length, f)
      ∧ st1.ledger = st.ledger
      ∧ st1.experts.map (fun r => r.bubble_uid) = st.experts.map fun r => r.bubble_uid := by
  obtain ⟨g, hg⟩ := batch_fetch_shape true toEpoch posts jit batch hlen
  simp only [process_batch, hg]
  exact process_experts_fold now batch _ (by simp) st p f hkeys

theorem enum_snd_mem {α : Type} {l : List α} {ib : Nat × α} (h : ib ∈ l.enum) : ib.2 ∈ l := by
  have hmap := List.enum_map_snd l
  rw [← hmap]
  exact List.mem_map_of_mem Prod.snd h

theorem batch_experts_sizes_le (l : List Expert) (M : Nat) :
    ∀ b ∈ batch_experts l M, b.length ≤ M := by
  intro b hb
  rcases List.mem_map.mp hb with ⟨j, _, rfl⟩
  exact List.length_take_le ..

theorem batch_experts_mem {M : Nat} (hM : 0 < M) {l b : List Expert}
    (hb : b ∈ batch_experts l M) {e : Expert} (he : e ∈ b) : e ∈ l := by
  rw [← batch_experts_flatten hM l]
  exact List.mem_flatten.mpr ⟨b, hb, he⟩

theorem batches_fold (toEpoch : String → Int) (posts : Nat → Nat → PostOutcome)
    (jit : Nat → Nat → ℚ) (now : Nat) :
    ∀ (bs : List (Nat × List Expert)) (st : SyncState) (p f : Nat),
    (∀ ib ∈ bs, ib.2.length ≤ 10) →
    (∀ ib ∈ bs, ∀ e ∈ ib.2, e.bubble_uid ∈ st.experts.map fun r => r.bubble_uid) →
    ∃ st1, bs.foldl (fun acc ib => process_batch true toEpoch (posts ib.1) (jit ib.1)
          (fun _ => true) now acc ib.2) (st, p, f)
        = (st1, p + (bs.map fun ib => ib.2.length).sum, f)
      ∧ st1.ledger = st.ledger
      ∧ st1.experts.map (fun r => r.bubble_uid) = st.experts.map fun r => r.bubble_uid := by
  intro bs
  induction bs with
  | nil =>
    intro st p f _ _
    exact ⟨st, by simp, rfl, rfl⟩
  | cons ib bs ih =>
    intro st p f hlen hkeys
    obtain ⟨st2, hb, hled2, hkeys2⟩ := process_batch_total toEpoch (posts ib.1) (jit ib.1)
      now ib.2 st p f (hlen ib (List.mem_cons_self ..)) (hkeys ib (List.mem_cons_self ..))
    rw [List.foldl_cons, hb]
    obtain ⟨st1, hrest, hled1, hkeys1⟩ := ih st2 (p + ib.2.length) f
      (fun jb hjb => hlen jb (List.mem_cons_of_mem _ hjb))
      (fun jb hjb e he => by rw [hkeys2]; exact hkeys jb (List.mem_cons_of_mem _ hjb) e he)
    refine ⟨st1, ?_, hled1.trans hled2, hkeys1.trans hkeys2⟩
    rw [hrest, List.map_cons, List.sum_cons,
      show p + (ib.2.length + (bs.map fun jb => jb.2.length).sum)
         = p + ib.2.length + (bs.map fun jb => jb.2.length).sum from by omega]

/-- C1 (amended): with the token configured and no local per-expert
exception, a whole-batch provider failure does not abort the pass — but
it is absorbed inside `fetch_experts_availability_batch`, which returns
`ok` with a null availability per expert instead of raising.  Every
expert of a failing batch therefore goes down the success path (its
record is updated with null earliest availability) and is counted as
processed, the orchestrator's per-batch `except` never fires for a
provider failure, the final report is `processed = N, failed = 0` for a
roster of `N` whatever the provider does (in the spec's 12-expert
scenario: `processed = 12, failed = 0`, not `processed = 10, failed
= 2`), and the Error Ledger is returned exactly as it was — the pass
makes no ledger write. -/
theorem full_pass_absorbs_batch_failure (toEpoch : String → Int)
    (posts : Nat → Nat → PostOutcome) (jit : Nat → Nat → ℚ) (now : Nat) (st : SyncState) :
    ∃ st1, update_all_expert_availability true toEpoch posts jit (fun _ => true) now st
        = (st1, st.experts.length, 0)
      ∧ st1.ledger = st.ledger := by
  by_cases hemp : st.experts.isEmpty
  · refine ⟨st, ?_, rfl⟩
    simp only [update_all_expert_availability, if_pos hemp]
    rw [List.isEmpty_iff] at hemp
    rw [hemp]
    rfl
  · simp only [update_all_expert_availability, if_neg hemp]
    obtain ⟨st1, hfold, hled, _⟩ := batches_fold toEpoch posts jit now
      (batch_experts st.experts 10).enum st 0 0
      (fun ib hib => batch_experts_sizes_le st.experts 10 ib.2 (enum_snd_mem hib))
      (fun ib hib e he => List.mem_map_of_mem _
        (batch_experts_mem (by norm_num) (enum_snd_mem hib) he))
    refine ⟨st1, ?_, hled⟩
    rw [hfold]
    have h1 : ((batch_experts st.experts 10).enum.map fun ib => ib.2.length)
        = (batch_experts st.experts 10).map List.length := by
      rw [show (fun ib : Nat × List Expert => ib.2.length)
            = List.length ∘ Prod.snd from rfl, ← List.map_map, List.enum_map_snd]
    have hsum : ((batch_experts st.experts 10).enum.map fun ib => ib.2.length).sum
        = st.experts.length := by
      rw [h1, ← List.length_flatten, batch_experts_flatten (by norm_num)]
    rw [hsum, Nat.zero_add]

/-- C1 counterexample: a roster of 12 experts with `maxPerBatch = 10`
(batches of 10 and 2) where the first batch's provider call succeeds
and the second batch's call times out past the retry budget.  The pass
reports `processed = 12, failed = 0` — not the claimed `processed = 10,
failed = 2` — and the Error Ledger afterwards is empty: the two experts
of the failed batch get no fresh ledger entry (the batch fetch converts
the failure into null availability, so its experts are "processed", and
the full-pass orchestrator never writes the ledger at all). -/
theorem full_pass_batch_failure_cex :
    (update_all_expert_availability true (fun _ => 0) postsBatch1Timeout (fun _ _ => 1)
        (fun _ => true) 1000 { experts := mkRoster 12, ledger := [] }).2 = (12, 0)
    ∧ (update_all_expert_availability true (fun _ => 0) postsBatch1Timeout (fun _ _ => 1)
        (fun _ => true) 1000 { experts := mkRoster 12, ledger := [] }).1.ledger = [] :=
  ⟨rfl, rfl⟩


end CalendarPolling
